import Mathlib

/-!
Verification development for the relevance-ranking engine of the
claude-simple-memory repository (source of truth: plugin/scripts/utils.js).

The JavaScript code is shallowly embedded as follows:
- JS strings are Lean `String` (a list of characters); `String.length` agrees
  with the JS `.length` on the inputs considered here (all characters in the
  basic multilingual plane).
- JS number arithmetic is embedded as exact real (`ℝ`) arithmetic.
- The IEEE value NaN, produced by `new Date(x).getTime()` on an unparseable
  date, is embedded as `Option.none`: a missing/unparseable timestamp is a
  `none` date and every arithmetic result derived from it is `none`.
- JS objects used as string-keyed maps (tf / tfidf vectors) are embedded as a
  finite key set together with a valuation; lookup `vec[w] || 0` is `SVec.get`.
-/

-- ═══════════════════════════════════════════════════════════════
-- Tokenizer (utils.js lines 11-77)
-- ═══════════════════════════════════════════════════════════════

/-- The stopword set of utils.js lines 11-28, verbatim (the JS `Set`
deduplicates the repeated Korean entry; list membership is equivalent). -/
def STOPWORDS : List String := [
  "the", "a", "an", "is", "are", "was", "were", "be", "been", "being",
  "have", "has", "had", "do", "does", "did", "will", "would", "could", "should",
  "may", "might", "must", "shall", "can", "need", "dare", "ought", "used",
  "to", "of", "in", "for", "on", "with", "at", "by", "from", "as", "into",
  "through", "during", "before", "after", "above", "below", "between",
  "and", "but", "or", "nor", "so", "yet", "both", "either", "neither",
  "not", "only", "own", "same", "than", "too", "very", "just",
  "this", "that", "these", "those", "it", "its",
  "이", "그", "저", "것", "수", "등", "들", "및", "에", "의", "를", "을",
  "은", "는", "이", "가", "와", "과", "로", "으로", "에서", "까지", "부터",
  "const", "let", "var", "function", "return", "import", "export", "from",
  "true", "false", "null", "undefined", "new", "class", "extends",
  "async", "await", "try", "catch", "if", "else", "for", "while"]

/-- The character class of the JS regex `\s` (ECMAScript WhiteSpace and
LineTerminator code points). -/
def jsIsSpace (c : Char) : Bool :=
  let n := c.toNat
  n = 0x20 || n = 0x09 || n = 0x0A || n = 0x0B || n = 0x0C || n = 0x0D ||
  n = 0xA0 || n = 0x1680 || (0x2000 ≤ n && n ≤ 0x200A) || n = 0x2028 ||
  n = 0x2029 || n = 0x202F || n = 0x205F || n = 0x3000 || n = 0xFEFF

/-- The character class of the JS regex `\w`: ASCII letters, digits and
underscore. -/
def isWordChar (c : Char) : Bool := c.isAlphanum || c = '_'

/-- The character range 가-힣 of the normalization regex in utils.js line 37
(Hangul syllables U+AC00 to U+D7A3). -/
def isHangulChar (c : Char) : Bool := 0xAC00 ≤ c.toNat && c.toNat ≤ 0xD7A3

/-- The JS regex test `/^\d+$/` of utils.js line 48: a non-empty string made
solely of ASCII digits. -/
def isDigitsOnly (w : String) : Bool := w ≠ "" && w.data.all Char.isDigit

/-- Maximal runs of characters not satisfying `p`.  This is the composite
effect of the JS idiom `replace(/P+/g, sep).trim-like handling.split(sep)`
followed by discarding empty fragments; every caller in utils.js feeds the
fragments into a filter that drops strings of length below 2, so dropping the
empty fragments here leaves all observable results unchanged. -/
def chunks (p : Char → Bool) (cs : List Char) : List (List Char) :=
  (cs.foldr
    (fun c acc =>
      if p c then [] :: acc
      else
        match acc with
        | [] => [[c]]
        | h :: t => (c :: h) :: t)
    []).filter (· ≠ [])

/-- utils.js lines 31-53, `extractKeywords`: lowercase, replace every
character outside `\w`, `\s`, 가-힣 with a space, split on whitespace, then
keep words of length at least 2 that are neither stopwords nor all digits.
JS `toLowerCase` is modeled by `Char.toLower` (they agree on ASCII; neither
affects Hangul, and any character where they could differ is replaced by a
space on both sides for the inputs considered here).  A null/absent text is
modeled as the empty string (both are falsy, line 32). -/
def extractKeywords (text : String) : List String :=
  if text = "" then []
  else
    let normalized := (text.data.map Char.toLower).map
      (fun c => if isWordChar c || jsIsSpace c || isHangulChar c then c else ' ')
    let words := (chunks jsIsSpace normalized).map (fun l => String.mk l)
    words.filter (fun word =>
      !(decide (word.length < 2)) && !(decide (word ∈ STOPWORDS)) &&
      !(isDigitsOnly word))

/-- The JS replace of `/\.[^.]+$/` by the empty string (utils.js line 63):
drop a final extension, that is a last dot followed by at least one non-dot
character reaching the end of the segment. -/
def stripExt (part : String) : String :=
  let cs := part.data
  let afterRev := cs.reverse.takeWhile (· ≠ '.')
  if afterRev.length = cs.length then part
  else if afterRev = [] then part
  else String.mk (cs.take (cs.length - afterRev.length - 1))

/-- The camelCase boundary split of utils.js line 70: the JS replace of
`/([a-z])([A-Z])/g` by the two letters separated by a space.  After a match
the scan resumes after the second letter, which the recursion mirrors. -/
def camelSplitChars : List Char → List Char
  | [] => []
  | [c] => [c]
  | c1 :: c2 :: rest =>
    if c1.isLower && c2.isUpper then c1 :: ' ' :: c2 :: camelSplitChars rest
    else c1 :: camelSplitChars (c2 :: rest)

/-- utils.js lines 56-77, `extractPathKeywords`: normalize backslashes,
split on `/`, strip one extension per segment, keep segments longer than 1,
split camelCase then kebab/snake/space boundaries, lowercase, and keep words
longer than 1 that are not stopwords.  The JS `split` calls keep empty
fragments which the ensuing length filters always discard, so `chunks` (which
drops them) yields the same results.  A null/absent path is modeled as the
empty string (both falsy, line 57). -/
def extractPathKeywords (filePath : String) : List String :=
  if filePath = "" then []
  else
    let parts := (chunks (· = '/')
        (filePath.data.map (fun c => if c = '\\' then '/' else c))).map
      (fun l => stripExt (String.mk l))
    let parts := parts.filter (fun part =>
      !(decide (part = "")) && decide (part.length > 1))
    parts.flatMap (fun part =>
      let camelSplit := (camelSplitChars part.data).map Char.toLower
      let words := (chunks (fun c => c = '-' || c = '_' || jsIsSpace c)
        camelSplit).map (fun l => String.mk l)
      words.filter (fun w =>
        decide (w.length > 1) && !(decide (w ∈ STOPWORDS))))

-- ═══════════════════════════════════════════════════════════════
-- TF-IDF (utils.js lines 84-142)
-- ═══════════════════════════════════════════════════════════════

/-- A JS object used as a string-keyed map of numbers: a finite set of
present keys and a valuation on them. -/
structure SVec where
  keys : Finset String
  val : String → ℝ

/-- The JS lookup `vec[word] || 0`: the stored value on present keys,
`0` on absent ones. -/
noncomputable def SVec.get (v : SVec) (word : String) : ℝ :=
  if word ∈ v.keys then v.val word else 0

/-- utils.js lines 84-97, `calculateTF`: raw per-word counts normalized by
the maximal count; `Math.max(...Object.values(tf), 1)` is the count supremum
floored at 1. -/
noncomputable def calculateTF (keywords : List String) : SVec :=
  let maxFreq : ℕ := max (keywords.toFinset.sup fun w => keywords.count w) 1
  ⟨keywords.toFinset, fun word => (keywords.count word : ℝ) / (maxFreq : ℝ)⟩

/-- utils.js lines 100-109, `calculateDF`: the number of documents in which a
word occurs at least once (counting each document once via its set of unique
words).  The JS object with absent keys read as 0 is modeled as a total
function, which is 0 on words occurring in no document. -/
def calculateDF (documents : List (List String)) : String → ℕ :=
  fun word => (documents.filter (fun doc => decide (word ∈ doc))).length

/-- utils.js lines 112-122, `calculateTFIDF`:
`tf(word) * (Math.log((totalDocs + 1) / ((df[word] || 0) + 1)) + 1)` over the
keys of the tf vector. -/
noncomputable def calculateTFIDF (keywords : List String) (df : String → ℕ)
    (totalDocs : ℕ) : SVec :=
  let tf := calculateTF keywords
  ⟨tf.keys, fun word =>
    tf.get word * (Real.log (((totalDocs : ℝ) + 1) / ((df word : ℝ) + 1)) + 1)⟩

/-- utils.js lines 125-142, `cosineSimilarity`: dot product and squared norms
accumulated over the union of the two key sets, returning 0 when either norm
is 0 and the normalized dot product otherwise. -/
noncomputable def cosineSimilarity (vec1 vec2 : SVec) : ℝ :=
  let allWords := vec1.keys ∪ vec2.keys
  let dotProduct := ∑ word ∈ allWords, vec1.get word * vec2.get word
  let norm1 := ∑ word ∈ allWords, vec1.get word * vec1.get word
  let norm2 := ∑ word ∈ allWords, vec2.get word * vec2.get word
  if norm1 = 0 ∨ norm2 = 0 then 0
  else dotProduct / (Real.sqrt norm1 * Real.sqrt norm2)

-- ═══════════════════════════════════════════════════════════════
-- Session model and relevance ranking (utils.js lines 149-246)
-- ═══════════════════════════════════════════════════════════════

/-- One entry of a session conversations array; the engine reads only its
`message` field (utils.js line 160). -/
structure Conversation where
  message : String

/-- One tool-operation observation; the engine reads its summary,
`details.file`, `details.command` and `context.lastUserMessage`
(utils.js lines 167-180).  Absent optional fields are `none`. -/
structure Observation where
  summary : String
  file : Option String
  command : Option String
  lastUserMessage : Option String

/-- A session record as read by the engine.  `date` is the parsed value of
`new Date(session.date).getTime()` in milliseconds: `none` embeds the IEEE
NaN obtained from a missing or unparseable date string.  Absent
`conversations` / `observations` arrays are the empty list. -/
structure Session where
  date : Option ℝ
  summary : String
  conversations : List Conversation
  observations : List Observation

/-- The current context consumed by `calculateRelevanceScores`:
`cwd` (absent or empty modeled as `none`, both falsy at line 192) and
`recentFiles` (absent modeled as the empty list). -/
structure CurrentContext where
  cwd : Option String
  recentFiles : List String

/-- utils.js lines 149-184, `extractSessionKeywords`: keywords from the
summary, then every conversation message, then every observation (its
summary, file path, command and lastUserMessage), concatenated in source
order.  The JS truthiness guards on `session.summary` and `conv.message`
are the tests against the empty string. -/
def extractSessionKeywords (session : Session) : List String :=
  (if session.summary ≠ "" then extractKeywords session.summary else []) ++
  session.conversations.flatMap
    (fun conv => if conv.message ≠ "" then extractKeywords conv.message else []) ++
  session.observations.flatMap
    (fun obs =>
      extractKeywords obs.summary ++
      (match obs.file with
       | some f => extractPathKeywords f
       | none => []) ++
      (match obs.command with
       | some cmd => extractKeywords cmd
       | none => []) ++
      (match obs.lastUserMessage with
       | some m => extractKeywords m
       | none => []))

/-- Hours elapsed since `t`, utils.js line 218:
`(Date.now() - new Date(session.date).getTime()) / (1000 * 60 * 60)`. -/
noncomputable def hoursSince (now t : ℝ) : ℝ := (now - t) / (1000 * 60 * 60)

/-- Days elapsed since `t`, utils.js line 217. -/
noncomputable def daysSince (now t : ℝ) : ℝ := (now - t) / (1000 * 60 * 60 * 24)

/-- The two-regime time weight of utils.js lines 221-226, for a session whose
date parsed to `t`: the linear branch strictly below 24 hours, the
exponential branch from 24 hours on. -/
noncomputable def timeWeightOf (now t : ℝ) : ℝ :=
  if hoursSince now t < 24 then 1 - hoursSince now t / 48
  else Real.exp (-daysSince now t / 14)

/-- The scored record built at utils.js lines 235-241.  `finalScore` is the
local of line 233 (the pre-clamp fused score), kept in the record so that the
pre-clamp value can be spoken about; the JS object itself carries the clamped
`score` of line 240.  A `none` time weight (NaN date) propagates through the
fusion and the clamp exactly as NaN does. -/
structure Scored where
  session : Session
  similarity : ℝ
  timeWeight : Option ℝ
  conversationBonus : ℝ
  finalScore : Option ℝ
  score : Option ℝ

/-- The corpus of documents over which the DF table is built,
utils.js line 205: the context keywords followed by one keyword list per
session. -/
def contextKeywordsOf (ctx : CurrentContext) : List String :=
  (match ctx.cwd with
   | some p => extractPathKeywords p
   | none => []) ++
  ctx.recentFiles.flatMap extractPathKeywords

/-- The document list handed to `calculateDF` at utils.js line 205. -/
def corpusDocs (ctx : CurrentContext) (sessions : List Session) :
    List (List String) :=
  contextKeywordsOf ctx :: sessions.map extractSessionKeywords

/-- The cosine similarity computed for one session at utils.js lines 213-214.
The JS code reads `sessionKeywordsList[index]`, which by construction of the
map at line 202 is `extractSessionKeywords` of that very session, recomputed
here. -/
noncomputable def similarityOf (ctx : CurrentContext) (sessions : List Session)
    (s : Session) : ℝ :=
  let df := calculateDF (corpusDocs ctx sessions)
  let totalDocs := sessions.length + 1
  cosineSimilarity
    (calculateTFIDF (contextKeywordsOf ctx) df totalDocs)
    (calculateTFIDF (extractSessionKeywords s) df totalDocs)

/-- The body of the map at utils.js lines 212-242 for one session: similarity,
time weight, conversation bonus, fused score and its clamp at 1.0. -/
noncomputable def scoreOne (now : ℝ) (ctx : CurrentContext)
    (sessions : List Session) (s : Session) : Scored :=
  let similarity := similarityOf ctx sessions s
  let timeWeight : Option ℝ := s.date.map (timeWeightOf now)
  let conversationBonus : ℝ := if s.conversations.length > 0 then 0.15 else 0
  let finalScore : Option ℝ :=
    timeWeight.map (fun tw => similarity * 0.4 + tw * 0.45 + conversationBonus)
  { session := s
    similarity := similarity
    timeWeight := timeWeight
    conversationBonus := conversationBonus
    finalScore := finalScore
    score := finalScore.map (fun f => min f 1) }

/-- The comparator `(a, b) => b.score - a.score` of utils.js line 245, read as
"a may stay before b": true when the comparator value is not positive.  When
either score is NaN (`none`) the comparator value is NaN, which is not
positive, so the pair is left in place like a tie. -/
def cmpLe (a b : Scored) : Prop :=
  match a.score, b.score with
  | some x, some y => y ≤ x
  | _, _ => True

noncomputable instance cmpLeDec : DecidableRel cmpLe :=
  fun _ _ => Classical.propDecidable _

/-- Insertion of one element into a list already sorted by `cmpLe`, placing it
before the first element it compares less-or-equal to.  Together with
`sortDesc` this is a stable sort, the behavior ECMAScript 2019 requires of
`Array.prototype.sort` with this comparator. -/
noncomputable def insertDesc (a : Scored) : List Scored → List Scored
  | [] => [a]
  | b :: l => if cmpLe a b then a :: b :: l else b :: insertDesc a l

/-- The stable descending sort of utils.js line 245. -/
noncomputable def sortDesc : List Scored → List Scored
  | [] => []
  | a :: l => insertDesc a (sortDesc l)

/-- utils.js lines 187-246, `calculateRelevanceScores`: empty corpus short
circuit (line 188), per-session scoring, and the descending stable sort of
line 245. -/
noncomputable def calculateRelevanceScores (now : ℝ) (ctx : CurrentContext)
    (sessions : List Session) : List Scored :=
  if sessions.length = 0 then []
  else sortDesc (sessions.map (scoreOne now ctx sessions))

-- ═══════════════════════════════════════════════════════════════
-- Helper lemmas
-- ═══════════════════════════════════════════════════════════════

lemma daysSince_eq_hoursSince_div (now t : ℝ) :
    daysSince now t = hoursSince now t / 24 := by
  unfold daysSince hoursSince; ring

lemma timeWeightOf_of_lt {now t : ℝ} (h : hoursSince now t < 24) :
    timeWeightOf now t = 1 - hoursSince now t / 48 := by
  unfold timeWeightOf; rw [if_pos h]

lemma timeWeightOf_of_ge {now t : ℝ} (h : 24 ≤ hoursSince now t) :
    timeWeightOf now t = Real.exp (-(hoursSince now t / 24) / 14) := by
  unfold timeWeightOf
  rw [if_neg (not_lt.2 h), daysSince_eq_hoursSince_div]

lemma hoursSince_self (now : ℝ) : hoursSince now now = 0 := by
  unfold hoursSince; ring

lemma hoursSince_24h (now : ℝ) : hoursSince now (now - 86400000) = 24 := by
  unfold hoursSince; norm_num

lemma hoursSince_14d (now : ℝ) :
    hoursSince now (now - 14 * 86400000) = 14 * 24 := by
  unfold hoursSince; norm_num

lemma timeWeightOf_self (now : ℝ) : timeWeightOf now now = 1 := by
  rw [timeWeightOf_of_lt (by rw [hoursSince_self]; norm_num), hoursSince_self]
  norm_num

lemma timeWeightOf_24h (now : ℝ) :
    timeWeightOf now (now - 86400000) = Real.exp (-(1 / 14)) := by
  rw [timeWeightOf_of_ge (by rw [hoursSince_24h]), hoursSince_24h]
  norm_num

lemma timeWeightOf_14d (now : ℝ) :
    timeWeightOf now (now - 14 * 86400000) = Real.exp (-1) := by
  rw [timeWeightOf_of_ge (by rw [hoursSince_14d]; norm_num), hoursSince_14d]
  norm_num

lemma half_lt_exp_neg_one_div_fourteen : (1 / 2 : ℝ) < Real.exp (-(1 / 14)) :=
  calc (1 / 2 : ℝ) < -(1 / 14) + 1 := by norm_num
    _ ≤ Real.exp (-(1 / 14)) := by
        have := Real.add_one_le_exp (-(1 / 14 : ℝ)); linarith

lemma scoreOne_session (now : ℝ) (ctx : CurrentContext) (ss : List Session)
    (s : Session) : (scoreOne now ctx ss s).session = s := rfl

lemma scoreOne_similarity (now : ℝ) (ctx : CurrentContext) (ss : List Session)
    (s : Session) : (scoreOne now ctx ss s).similarity = similarityOf ctx ss s := rfl

lemma scoreOne_timeWeight (now : ℝ) (ctx : CurrentContext) (ss : List Session)
    (s : Session) :
    (scoreOne now ctx ss s).timeWeight = s.date.map (timeWeightOf now) := rfl

lemma scoreOne_bonus (now : ℝ) (ctx : CurrentContext) (ss : List Session)
    (s : Session) : (scoreOne now ctx ss s).conversationBonus
      = if s.conversations.length > 0 then (0.15 : ℝ) else 0 := rfl

lemma scoreOne_finalScore (now : ℝ) (ctx : CurrentContext) (ss : List Session)
    (s : Session) : (scoreOne now ctx ss s).finalScore
      = (s.date.map (timeWeightOf now)).map
          (fun tw => similarityOf ctx ss s * 0.4 + tw * 0.45 +
            (if s.conversations.length > 0 then (0.15 : ℝ) else 0)) := rfl

lemma scoreOne_score (now : ℝ) (ctx : CurrentContext) (ss : List Session)
    (s : Session) : (scoreOne now ctx ss s).score
      = (scoreOne now ctx ss s).finalScore.map (fun f => min f 1) := rfl

lemma insertDesc_perm (a : Scored) (l : List Scored) :
    (insertDesc a l).Perm (a :: l) := by
  induction l with
  | nil => simp [insertDesc]
  | cons b t ih =>
    by_cases h : cmpLe a b
    · simp [insertDesc, h]
    · simp only [insertDesc, if_neg h]
      exact (ih.cons b).trans (List.Perm.swap a b t)

lemma sortDesc_perm (l : List Scored) : (sortDesc l).Perm l := by
  induction l with
  | nil => simp [sortDesc]
  | cons a t ih =>
    exact (insertDesc_perm a (sortDesc t)).trans (ih.cons a)

lemma mem_insertDesc {x a : Scored} {l : List Scored} :
    x ∈ insertDesc a l ↔ x = a ∨ x ∈ l := by
  rw [(insertDesc_perm a l).mem_iff, List.mem_cons]

lemma mem_sortDesc {x : Scored} {l : List Scored} :
    x ∈ sortDesc l ↔ x ∈ l := (sortDesc_perm l).mem_iff

lemma cmpLe_total (a b : Scored) : cmpLe a b ∨ cmpLe b a := by
  unfold cmpLe
  rcases a.score with _ | x <;> rcases b.score with _ | y <;> simp
  exact le_total y x

lemma cmpLe_trans_of_mid {a b c : Scored} (hb : b.score.isSome)
    (h1 : cmpLe a b) (h2 : cmpLe b c) : cmpLe a c := by
  rcases hsb : b.score with _ | y
  · rw [hsb] at hb; simp at hb
  · rcases hsa : a.score with _ | x
    · simp [cmpLe, hsa]
    · rcases hsc : c.score with _ | z
      · simp [cmpLe, hsa, hsc]
      · have h1' : y ≤ x := by
          have := h1; unfold cmpLe at this; rw [hsa, hsb] at this; exact this
        have h2' : z ≤ y := by
          have := h2; unfold cmpLe at this; rw [hsb, hsc] at this; exact this
        unfold cmpLe; rw [hsa, hsc]; exact h2'.trans h1'

lemma pairwise_insertDesc {a : Scored} {l : List Scored}
    (hsome : ∀ x ∈ l, x.score.isSome) (hl : l.Pairwise cmpLe) :
    (insertDesc a l).Pairwise cmpLe := by
  induction l with
  | nil => simp [insertDesc]
  | cons b t ih =>
    by_cases h : cmpLe a b
    · simp only [insertDesc, if_pos h]
      refine List.Pairwise.cons ?_ hl
      intro x hx
      rcases List.mem_cons.1 hx with rfl | hxt
      · exact h
      · exact cmpLe_trans_of_mid (hsome b (by simp)) h
          ((List.pairwise_cons.1 hl).1 x hxt)
    · simp only [insertDesc, if_neg h]
      refine List.Pairwise.cons ?_
        (ih (fun x hx => hsome x (by simp [hx])) hl.of_cons)
      intro x hx
      rcases mem_insertDesc.1 hx with rfl | hxt
      · exact (cmpLe_total x b).resolve_left h
      · exact (List.pairwise_cons.1 hl).1 x hxt

lemma pairwise_sortDesc {l : List Scored}
    (hsome : ∀ x ∈ l, x.score.isSome) : (sortDesc l).Pairwise cmpLe := by
  induction l with
  | nil => simp [sortDesc]
  | cons a t ih =>
    exact pairwise_insertDesc
      (fun x hx => hsome x (by simp [mem_sortDesc.1 hx]))
      (ih (fun x hx => hsome x (by simp [hx])))

/-- The non-increasing-score relation of the claims: both scores are actual
numbers and the later one is at most the earlier one.  A NaN (`none`) score
compares false, as IEEE comparisons with NaN do. -/
def scoreGe (a b : Scored) : Prop :=
  match a.score, b.score with
  | some x, some y => y ≤ x
  | _, _ => False

lemma cmpLe_to_scoreGe {a b : Scored} (ha : a.score.isSome)
    (hb : b.score.isSome) (h : cmpLe a b) : scoreGe a b := by
  unfold cmpLe at h; unfold scoreGe
  rcases hsa : a.score with _ | x
  · rw [hsa] at ha; simp at ha
  · rcases hsb : b.score with _ | y
    · rw [hsb] at hb; simp at hb
    · rw [hsa, hsb] at h; simpa using h

lemma filter_insertDesc_neg {p : Scored → Bool} {a : Scored}
    (hpa : p a = false) (l : List Scored) :
    (insertDesc a l).filter p = l.filter p := by
  induction l with
  | nil => simp [insertDesc, hpa]
  | cons b t ih =>
    by_cases h : cmpLe a b
    · simp [insertDesc, h, List.filter_cons, hpa]
    · simp only [insertDesc, if_neg h]
      rw [List.filter_cons, List.filter_cons, ih]

lemma filter_insertDesc_pos {p : Scored → Bool} {a : Scored}
    (hpa : p a = true) (hcomp : ∀ b, p b = true → cmpLe a b)
    (l : List Scored) : (insertDesc a l).filter p = a :: l.filter p := by
  induction l with
  | nil => simp [insertDesc, hpa]
  | cons b t ih =>
    by_cases h : cmpLe a b
    · simp [insertDesc, h, List.filter_cons, hpa]
    · have hpb : p b = false := by
        by_contra hb
        exact h (hcomp b (by simpa using hb))
      simp only [insertDesc, if_neg h]
      rw [List.filter_cons, List.filter_cons, hpb, ih]
      simp

lemma filter_sortDesc {p : Scored → Bool}
    (hcomp : ∀ x y, p x = true → p y = true → cmpLe x y) (l : List Scored) :
    (sortDesc l).filter p = l.filter p := by
  induction l with
  | nil => simp [sortDesc]
  | cons a t ih =>
    rcases hpa : p a with _ | _
    · rw [sortDesc, filter_insertDesc_neg hpa, List.filter_cons, hpa, ih]
      simp
    · rw [sortDesc, filter_insertDesc_pos hpa (fun b hb => hcomp a b hpa hb),
        List.filter_cons, hpa, ih]
      simp

lemma rank_eq_of_ne_nil {now : ℝ} {ctx : CurrentContext}
    {sessions : List Session} (h : sessions ≠ []) :
    calculateRelevanceScores now ctx sessions
      = sortDesc (sessions.map (scoreOne now ctx sessions)) := by
  unfold calculateRelevanceScores
  rw [if_neg (by simpa using h)]

lemma mem_rank {now : ℝ} {ctx : CurrentContext} {sessions : List Session}
    {r : Scored} (h : r ∈ calculateRelevanceScores now ctx sessions) :
    ∃ s ∈ sessions, r = scoreOne now ctx sessions s := by
  rcases List.eq_nil_or_concat sessions with rfl | _
  · simp [calculateRelevanceScores] at h
  · have hne : sessions ≠ [] := by
      rintro rfl; simp_all
    rw [rank_eq_of_ne_nil hne] at h
    rcases List.mem_map.1 (mem_sortDesc.1 h) with ⟨s, hs, rfl⟩
    exact ⟨s, hs, rfl⟩

lemma calculateTF_keys (kws : List String) :
    (calculateTF kws).keys = kws.toFinset := rfl

lemma calculateTF_get_of_mem {kws : List String} {w : String} (h : w ∈ kws) :
    (calculateTF kws).get w = (kws.count w : ℝ)
      / ((max (kws.toFinset.sup fun u => kws.count u) 1 : ℕ) : ℝ) := by
  unfold calculateTF SVec.get
  simp only [if_pos (List.mem_toFinset.2 h)]

lemma maxFreq_pos (kws : List String) :
    0 < max (kws.toFinset.sup fun u => kws.count u) 1 :=
  lt_of_lt_of_le Nat.zero_lt_one (le_max_right _ 1)

lemma calculateTF_get_pos {kws : List String} {w : String} (h : w ∈ kws) :
    0 < (calculateTF kws).get w := by
  rw [calculateTF_get_of_mem h]
  exact div_pos (by exact_mod_cast List.count_pos_iff.2 h)
    (by exact_mod_cast maxFreq_pos kws)

lemma calculateTF_get_le_one {kws : List String} {w : String} (h : w ∈ kws) :
    (calculateTF kws).get w ≤ 1 := by
  rw [calculateTF_get_of_mem h]
  rw [div_le_one (by exact_mod_cast maxFreq_pos kws)]
  have h1 : kws.count w ≤ kws.toFinset.sup fun u => kws.count u :=
    @Finset.le_sup ℕ String _ _ kws.toFinset (fun u => kws.count u) w
      (List.mem_toFinset.2 h)
  have hle : kws.count w ≤ max (kws.toFinset.sup fun u => kws.count u) 1 :=
    le_trans h1 (le_max_left _ 1)
  exact_mod_cast hle

lemma calculateTF_exists_eq_one {kws : List String} (h : kws ≠ []) :
    ∃ w ∈ kws, (calculateTF kws).get w = 1 := by
  have hne : kws.toFinset.Nonempty := by
    obtain ⟨w, hw⟩ := List.exists_mem_of_ne_nil kws h
    exact ⟨w, List.mem_toFinset.2 hw⟩
  obtain ⟨w0, hw0, hsup⟩ := Finset.exists_mem_eq_sup _ hne (fun u => kws.count u)
  have hc : 0 < kws.count w0 := List.count_pos_iff.2 (List.mem_toFinset.1 hw0)
  refine ⟨w0, List.mem_toFinset.1 hw0, ?_⟩
  rw [calculateTF_get_of_mem (List.mem_toFinset.1 hw0), hsup,
    Nat.max_eq_left hc]
  exact div_self (by exact_mod_cast Nat.pos_iff_ne_zero.1 hc)

lemma calculateTFIDF_keys (kws : List String) (df : String → ℕ) (N : ℕ) :
    (calculateTFIDF kws df N).keys = kws.toFinset := rfl

lemma calculateTFIDF_get_of_mem {kws : List String} {w : String}
    (df : String → ℕ) (N : ℕ) (h : w ∈ kws) :
    (calculateTFIDF kws df N).get w
      = (calculateTF kws).get w
        * (Real.log (((N : ℝ) + 1) / ((df w : ℝ) + 1)) + 1) := by
  unfold calculateTFIDF SVec.get
  simp only [calculateTF_keys, if_pos (List.mem_toFinset.2 h)]

lemma calculateTFIDF_get_of_not_mem {kws : List String} {w : String}
    (df : String → ℕ) (N : ℕ) (h : w ∉ kws) :
    (calculateTFIDF kws df N).get w = 0 := by
  unfold calculateTFIDF SVec.get
  simp only [calculateTF_keys]
  rw [if_neg (fun hm => h (List.mem_toFinset.1 hm))]

lemma idf_pos {df : String → ℕ} {N : ℕ} {w : String} (h : df w ≤ N) :
    0 < Real.log (((N : ℝ) + 1) / ((df w : ℝ) + 1)) + 1 := by
  have hlog : 0 ≤ Real.log (((N : ℝ) + 1) / ((df w : ℝ) + 1)) := by
    apply Real.log_nonneg
    rw [le_div_iff₀ (by positivity)]
    have : (df w : ℝ) ≤ (N : ℝ) := by exact_mod_cast h
    linarith
  linarith

/-- C6: for every non-empty token sequence, every value of the TF vector lies
in (0, 1] and some token has value exactly 1; the empty token sequence yields
the empty vector (no keys, all lookups 0). -/
theorem c6_tf_bounds :
    (∀ kws : List String, kws ≠ [] →
      (∀ w ∈ (calculateTF kws).keys,
        0 < (calculateTF kws).get w ∧ (calculateTF kws).get w ≤ 1) ∧
      (∃ w ∈ (calculateTF kws).keys, (calculateTF kws).get w = 1)) ∧
    ((calculateTF []).keys = ∅ ∧ ∀ w, (calculateTF []).get w = 0) := by
  refine ⟨fun kws hne => ⟨fun w hw => ?_, ?_⟩, ?_, ?_⟩
  · have hm : w ∈ kws := List.mem_toFinset.1 (by rwa [calculateTF_keys] at hw)
    exact ⟨calculateTF_get_pos hm, calculateTF_get_le_one hm⟩
  · obtain ⟨w, hw, h1⟩ := calculateTF_exists_eq_one hne
    exact ⟨w, by rw [calculateTF_keys]; exact List.mem_toFinset.2 hw, h1⟩
  · simp [calculateTF]
  · intro w; simp [calculateTF, SVec.get]

/-- Witness for C6 at the concrete token sequence ["ab", "ab", "cd"]. -/
theorem c6_witness :
    (∀ w ∈ (calculateTF ["ab", "ab", "cd"]).keys,
      0 < (calculateTF ["ab", "ab", "cd"]).get w ∧
      (calculateTF ["ab", "ab", "cd"]).get w ≤ 1) ∧
    (∃ w ∈ (calculateTF ["ab", "ab", "cd"]).keys,
      (calculateTF ["ab", "ab", "cd"]).get w = 1) :=
  c6_tf_bounds.1 ["ab", "ab", "cd"] (by decide)

/-- C7: on every token of the input sequence the TF-IDF vector is
tf(t) * (ln((N+1)/(df(t)+1)) + 1), and whenever the DF table is bounded by
the document count N, every one of these weights is strictly positive. -/
theorem c7_tfidf_formula :
    ∀ (kws : List String) (df : String → ℕ) (N : ℕ),
      (∀ t ∈ kws, (calculateTFIDF kws df N).get t
          = (calculateTF kws).get t
            * (Real.log (((N : ℝ) + 1) / ((df t : ℝ) + 1)) + 1)) ∧
      ((∀ t, df t ≤ N) → ∀ t ∈ kws, 0 < (calculateTFIDF kws df N).get t) := by
  intro kws df N
  refine ⟨fun t ht => calculateTFIDF_get_of_mem df N ht, fun hdf t ht => ?_⟩
  rw [calculateTFIDF_get_of_mem df N ht]
  exact mul_pos (calculateTF_get_pos ht) (idf_pos (hdf t))

/-- Witness for C7 at the concrete input ["ab"] with df = 1 everywhere and
N = 2 documents. -/
theorem c7_witness :
    ((calculateTFIDF ["ab"] (fun _ => 1) 2).get "ab"
      = (calculateTF ["ab"]).get "ab"
        * (Real.log ((((2 : ℕ) : ℝ) + 1) / (((1 : ℕ) : ℝ) + 1)) + 1)) ∧
    0 < (calculateTFIDF ["ab"] (fun _ => 1) 2).get "ab" :=
  ⟨(c7_tfidf_formula ["ab"] (fun _ => 1) 2).1 "ab" (by decide),
   (c7_tfidf_formula ["ab"] (fun _ => 1) 2).2 (fun _ => by norm_num) "ab"
     (by decide)⟩

lemma cosineSimilarity_def (v1 v2 : SVec) :
    cosineSimilarity v1 v2 =
      if (∑ w ∈ v1.keys ∪ v2.keys, v1.get w * v1.get w) = 0 ∨
         (∑ w ∈ v1.keys ∪ v2.keys, v2.get w * v2.get w) = 0 then 0
      else (∑ w ∈ v1.keys ∪ v2.keys, v1.get w * v2.get w)
        / (Real.sqrt (∑ w ∈ v1.keys ∪ v2.keys, v1.get w * v1.get w)
          * Real.sqrt (∑ w ∈ v1.keys ∪ v2.keys, v2.get w * v2.get w)) := rfl

/-- C5: with non-negative entries the cosine similarity lies in [0, 1]; a
vector with a non-zero entry has self-similarity exactly 1; a zero norm
(in particular an empty vector) makes the result exactly 0. -/
theorem c5_cosine_properties :
    (∀ v1 v2 : SVec, (∀ w, 0 ≤ v1.get w) → (∀ w, 0 ≤ v2.get w) →
      0 ≤ cosineSimilarity v1 v2 ∧ cosineSimilarity v1 v2 ≤ 1) ∧
    (∀ v : SVec, (∃ w, v.get w ≠ 0) → cosineSimilarity v v = 1) ∧
    (∀ v1 v2 : SVec,
      ((∑ w ∈ v1.keys ∪ v2.keys, v1.get w * v1.get w) = 0 ∨
       (∑ w ∈ v1.keys ∪ v2.keys, v2.get w * v2.get w) = 0) →
      cosineSimilarity v1 v2 = 0) ∧
    (∀ (val : String → ℝ) (v2 : SVec), cosineSimilarity ⟨∅, val⟩ v2 = 0) := by
  refine ⟨fun v1 v2 h1 h2 => ?_, fun v hv => ?_, fun v1 v2 h => ?_,
    fun val v2 => ?_⟩
  · rw [cosineSimilarity_def]
    by_cases hz : (∑ w ∈ v1.keys ∪ v2.keys, v1.get w * v1.get w) = 0 ∨
        (∑ w ∈ v1.keys ∪ v2.keys, v2.get w * v2.get w) = 0
    · rw [if_pos hz]; norm_num
    · rw [if_neg hz]
      push_neg at hz
      have hn1 : 0 < ∑ w ∈ v1.keys ∪ v2.keys, v1.get w * v1.get w :=
        (Finset.sum_nonneg fun i _ => mul_self_nonneg _).lt_of_ne (Ne.symm hz.1)
      have hn2 : 0 < ∑ w ∈ v1.keys ∪ v2.keys, v2.get w * v2.get w :=
        (Finset.sum_nonneg fun i _ => mul_self_nonneg _).lt_of_ne (Ne.symm hz.2)
      have hdenom : 0 < Real.sqrt (∑ w ∈ v1.keys ∪ v2.keys, v1.get w * v1.get w)
          * Real.sqrt (∑ w ∈ v1.keys ∪ v2.keys, v2.get w * v2.get w) :=
        mul_pos (Real.sqrt_pos.2 hn1) (Real.sqrt_pos.2 hn2)
      constructor
      · exact div_nonneg
          (Finset.sum_nonneg fun i _ => mul_nonneg (h1 i) (h2 i)) hdenom.le
      · rw [div_le_one hdenom]
        have hcs := Real.sum_mul_le_sqrt_mul_sqrt (v1.keys ∪ v2.keys)
          (fun w => v1.get w) (fun w => v2.get w)
        have e1 : ∑ w ∈ v1.keys ∪ v2.keys, v1.get w ^ 2
            = ∑ w ∈ v1.keys ∪ v2.keys, v1.get w * v1.get w :=
          Finset.sum_congr rfl fun x _ => by ring
        have e2 : ∑ w ∈ v1.keys ∪ v2.keys, v2.get w ^ 2
            = ∑ w ∈ v1.keys ∪ v2.keys, v2.get w * v2.get w :=
          Finset.sum_congr rfl fun x _ => by ring
        rw [e1, e2] at hcs
        exact hcs
  · obtain ⟨w0, hw0⟩ := hv
    have hw0k : w0 ∈ v.keys := by
      by_contra hk
      exact hw0 (by simp [SVec.get, hk])
    rw [cosineSimilarity_def]
    simp only [Finset.union_self]
    have hpos : 0 < ∑ w ∈ v.keys, v.get w * v.get w :=
      Finset.sum_pos' (fun i _ => mul_self_nonneg _)
        ⟨w0, hw0k, mul_self_pos.2 hw0⟩
    rw [if_neg (by push_neg; exact ⟨ne_of_gt hpos, ne_of_gt hpos⟩)]
    rw [Real.mul_self_sqrt hpos.le]
    exact div_self (ne_of_gt hpos)
  · rw [cosineSimilarity_def, if_pos h]
  · rw [cosineSimilarity_def]
    refine if_pos (Or.inl (Finset.sum_eq_zero fun w _ => ?_))
    simp [SVec.get]

/-- A concrete one-entry vector used to witness C5. -/
noncomputable def vOne : SVec := ⟨{"ab"}, fun _ => 1⟩

/-- Witness for C5 at concrete vectors. -/
theorem c5_witness :
    (0 ≤ cosineSimilarity vOne vOne ∧ cosineSimilarity vOne vOne ≤ 1) ∧
    cosineSimilarity vOne vOne = 1 ∧
    cosineSimilarity ⟨∅, fun _ => 0⟩ vOne = 0 :=
  ⟨c5_cosine_properties.1 vOne vOne
      (fun w => by unfold vOne SVec.get; split <;> norm_num)
      (fun w => by unfold vOne SVec.get; split <;> norm_num),
   c5_cosine_properties.2.1 vOne ⟨"ab", by simp [vOne, SVec.get]⟩,
   c5_cosine_properties.2.2.2 (fun _ => 0) vOne⟩

-- ═══════════════════════════════════════════════════════════════
-- Concrete fixtures for evaluating the ranker
-- ═══════════════════════════════════════════════════════════════

/-- A current context with no working directory and no recent files. -/
def ctx0 : CurrentContext := ⟨none, []⟩

/-- A bare session timestamped at epoch 0 ms. -/
def sEpoch : Session := ⟨some 0, "", [], []⟩

/-- A session whose date failed to parse (NaN timestamp). -/
def sNan : Session := ⟨none, "", [], []⟩

lemma sortDesc_singleton (x : Scored) : sortDesc [x] = [x] := by
  simp [sortDesc, insertDesc]

lemma rank_singleton (now : ℝ) (ctx : CurrentContext) (s : Session) :
    calculateRelevanceScores now ctx [s] = [scoreOne now ctx [s] s] := by
  rw [rank_eq_of_ne_nil (by simp), List.map_cons, List.map_nil,
    sortDesc_singleton]

lemma timeWeightOf_86400000_0 :
    timeWeightOf 86400000 0 = Real.exp (-(1 / 14)) := by
  have h := timeWeightOf_24h (86400000 : ℝ)
  norm_num at h
  exact h

/-- C1 counterexample: in a ranking performed at `now = 86400000` ms, the
session timestamped exactly 24 hours earlier (epoch 0) receives time weight
exp(-1/14), which is not the 0.5 the claim asserts. -/
theorem c1_counterexample :
    ((calculateRelevanceScores 86400000 ctx0 [sEpoch]).map
        (fun r => r.timeWeight) = [some (Real.exp (-(1 / 14)))]) ∧
    Real.exp (-(1 / 14) : ℝ) ≠ 0.5 := by
  constructor
  · rw [rank_singleton, List.map_cons, List.map_nil, scoreOne_timeWeight]
    show [(sEpoch.date).map (timeWeightOf 86400000)] = _
    rw [show sEpoch.date = some 0 from rfl, Option.map_some',
      timeWeightOf_86400000_0]
  · intro h
    have := half_lt_exp_neg_one_div_fourteen
    rw [h] at this
    norm_num at this

/-- C1 (amended): in any ranking, a session timestamped exactly at `now` has
time weight 1.0; one timestamped exactly 24 hours before `now` has time
weight exp(-1/14) (at the boundary the strict `h < 24` test fails, so the
exponential branch applies, not the linear value 0.5); one timestamped 14
days before `now` has time weight exp(-1). -/
theorem c1_time_weight_boundaries (now : ℝ) (ctx : CurrentContext)
    (ss : List Session) (r : Scored)
    (hr : r ∈ calculateRelevanceScores now ctx ss) :
    (r.session.date = some now → r.timeWeight = some 1) ∧
    (r.session.date = some (now - 86400000) →
      r.timeWeight = some (Real.exp (-(1 / 14)))) ∧
    (r.session.date = some (now - 14 * 86400000) →
      r.timeWeight = some (Real.exp (-1))) := by
  obtain ⟨s, _, rfl⟩ := mem_rank hr
  rw [scoreOne_timeWeight]
  have hd : (scoreOne now ctx ss s).session.date = s.date := rfl
  rw [hd]
  refine ⟨fun h => ?_, fun h => ?_, fun h => ?_⟩
  · rw [h, Option.map_some', timeWeightOf_self]
  · rw [h, Option.map_some', timeWeightOf_24h]
  · rw [h, Option.map_some', timeWeightOf_14d]

/-- Witness for C1 at three concrete ranking instants over the concrete
corpus [sEpoch]. -/
theorem c1_witness :
    (scoreOne 0 ctx0 [sEpoch] sEpoch).timeWeight = some 1 ∧
    (scoreOne 86400000 ctx0 [sEpoch] sEpoch).timeWeight
      = some (Real.exp (-(1 / 14))) ∧
    (scoreOne (14 * 86400000) ctx0 [sEpoch] sEpoch).timeWeight
      = some (Real.exp (-1)) :=
  ⟨(c1_time_weight_boundaries 0 ctx0 [sEpoch] _
      (by rw [rank_singleton]; exact List.mem_singleton.2 rfl)).1 rfl,
   (c1_time_weight_boundaries 86400000 ctx0 [sEpoch] _
      (by rw [rank_singleton]; exact List.mem_singleton.2 rfl)).2.1
      (by show some (0 : ℝ) = _; norm_num),
   (c1_time_weight_boundaries (14 * 86400000) ctx0 [sEpoch] _
      (by rw [rank_singleton]; exact List.mem_singleton.2 rfl)).2.2
      (by show some (0 : ℝ) = _; norm_num)⟩

/-- C2: for a session whose timestamp parsed to `t`, the time weight follows
the linear branch 1 - h/48 for h < 24 and the exponential branch
exp(-(h/24)/14) for h ≥ 24, and the two branch formulas disagree at the
h = 24 boundary (no smoothing). -/
theorem c2_time_weight_branches (now : ℝ) (ctx : CurrentContext)
    (ss : List Session) (r : Scored) (t : ℝ)
    (hr : r ∈ calculateRelevanceScores now ctx ss)
    (ht : r.session.date = some t) :
    (hoursSince now t < 24 → r.timeWeight = some (1 - hoursSince now t / 48)) ∧
    (24 ≤ hoursSince now t →
      r.timeWeight = some (Real.exp (-(hoursSince now t / 24) / 14))) ∧
    (1 - (24 : ℝ) / 48 ≠ Real.exp (-((24 : ℝ) / 24) / 14)) := by
  obtain ⟨s, _, rfl⟩ := mem_rank hr
  have hd : (scoreOne now ctx ss s).session.date = s.date := rfl
  rw [hd] at ht
  rw [scoreOne_timeWeight, ht, Option.map_some']
  refine ⟨fun h => ?_, fun h => ?_, ?_⟩
  · rw [timeWeightOf_of_lt h]
  · rw [timeWeightOf_of_ge h]
  · intro h
    have h2 : (1 / 2 : ℝ) = Real.exp (-(1 / 14)) := by
      calc (1 / 2 : ℝ) = 1 - 24 / 48 := by norm_num
        _ = Real.exp (-(24 / 24) / 14) := h
        _ = Real.exp (-(1 / 14)) := by norm_num
    have := half_lt_exp_neg_one_div_fourteen
    rw [← h2] at this
    exact lt_irrefl _ this

/-- Witness for C2: both branches exercised on the concrete corpus [sEpoch],
at now = 0 (h = 0 < 24) and at now = 86400000 (h = 24). -/
theorem c2_witness :
    (scoreOne 0 ctx0 [sEpoch] sEpoch).timeWeight
      = some (1 - hoursSince 0 0 / 48) ∧
    (scoreOne 86400000 ctx0 [sEpoch] sEpoch).timeWeight
      = some (Real.exp (-(hoursSince 86400000 0 / 24) / 14)) :=
  ⟨(c2_time_weight_branches 0 ctx0 [sEpoch] _ 0
      (by rw [rank_singleton]; exact List.mem_singleton.2 rfl) rfl).1
      (by rw [hoursSince_self]; norm_num),
   (c2_time_weight_branches 86400000 ctx0 [sEpoch] _ 0
      (by rw [rank_singleton]; exact List.mem_singleton.2 rfl) rfl).2.1
      (by have := hoursSince_24h (86400000 : ℝ); norm_num at this;
          rw [this])⟩

/-- C3: a session whose date is missing or unparseable (NaN timestamp,
embedded as `none`) flows through ranking without error, but its time weight
is NaN (`none`), not the claimed 0, and its final score is NaN (`none`), not
a well-defined number. -/
theorem c3_nan_date_eval :
    ((calculateRelevanceScores 0 ctx0 [sNan]).map
        (fun r => (r.timeWeight, r.score)) = [((none : Option ℝ), (none : Option ℝ))]) ∧
    (none : Option ℝ) ≠ some 0 := by
  constructor
  · rw [rank_singleton, List.map_cons, List.map_nil]
    rw [show ((scoreOne 0 ctx0 [sNan] sNan).timeWeight, (scoreOne 0 ctx0 [sNan] sNan).score)
        = ((none : Option ℝ), (none : Option ℝ)) from rfl]
  · simp

lemma scoreOne_score_isSome {now : ℝ} {ctx : CurrentContext}
    {ss : List Session} {s : Session} (h : s.date.isSome) :
    ((scoreOne now ctx ss s).score).isSome := by
  rw [scoreOne_score, scoreOne_finalScore]
  rcases hd : s.date with _ | t
  · rw [hd] at h; simp at h
  · simp [hd]

/-- C9: the ranking returns exactly the input session records (as the
`session` field of the scored entries), merely permuted by the sort; the
embedding is a pure function of the input, so no session record is mutated. -/
theorem c9_sessions_preserved (now : ℝ) (ctx : CurrentContext)
    (ss : List Session) :
    ((calculateRelevanceScores now ctx ss).map (fun r => r.session)).Perm ss := by
  rcases eq_or_ne ss [] with rfl | hne
  · simp [calculateRelevanceScores]
  · rw [rank_eq_of_ne_nil hne]
    have h1 : ((sortDesc (ss.map (scoreOne now ctx ss))).map
        (fun r => r.session)).Perm
        ((ss.map (scoreOne now ctx ss)).map (fun r => r.session)) :=
      (sortDesc_perm _).map _
    have h2 : (ss.map (scoreOne now ctx ss)).map (fun r => r.session) = ss := by
      rw [List.map_map]
      have : ((fun r : Scored => r.session) ∘ scoreOne now ctx ss)
          = fun s => s := funext fun s => rfl
      rw [this, List.map_id']
    rwa [h2] at h1

lemma mem_extractPathKeywords {p t : String} (ht : t ∈ extractPathKeywords p) :
    t.length > 1 ∧ t ∉ STOPWORDS := by
  unfold extractPathKeywords at ht
  split at ht
  · simp at ht
  · simp only [List.mem_flatMap, List.mem_filter, Bool.and_eq_true,
      Bool.not_eq_true', decide_eq_true_eq, decide_eq_false_iff_not] at ht
    obtain ⟨part, -, -, hcond⟩ := ht
    exact hcond

/-- C10: every token produced by the path tokenizer has length at least 2 and
is no stopword, but, unlike the text tokenizer, no pure-digit filter is
applied: the path "/2024/foo" yields the all-digit token "2024", while the
text tokenizer drops "2024" from "2024 foo". -/
theorem c10_path_tokens :
    (∀ p : String, ∀ t ∈ extractPathKeywords p,
      2 ≤ t.length ∧ t ∉ STOPWORDS) ∧
    ("2024" ∈ extractPathKeywords "/2024/foo" ∧
      ("2024" : String).data.all Char.isDigit = true ∧
      extractKeywords "2024 foo" = ["foo"]) := by
  refine ⟨fun p t ht => ?_, by decide, by decide, by decide⟩
  obtain ⟨h1, h2⟩ := mem_extractPathKeywords ht
  exact ⟨h1, h2⟩

/-- Witness for C10: the theorem applied to the concrete path "/2024/foo"
and its token "2024". -/
theorem c10_witness :
    2 ≤ ("2024" : String).length ∧ ("2024" : String) ∉ STOPWORDS :=
  c10_path_tokens.1 "/2024/foo" "2024" (by decide)

/-- C8 (amended): when every session timestamp parses, the ranking output is
pairwise non-increasing in score, and for every score value the entries
carrying that score appear in exactly the order the corpus induces (the sort
is stable; the pre-sort list `ss.map (scoreOne now ctx ss)` is in corpus
order). -/
theorem c8_sorted_stable (now : ℝ) (ctx : CurrentContext) (ss : List Session)
    (hdates : ∀ s ∈ ss, s.date.isSome) :
    (calculateRelevanceScores now ctx ss).Pairwise scoreGe ∧
    ∀ c : Option ℝ,
      (calculateRelevanceScores now ctx ss).filter
          (fun r => decide (r.score = c))
        = (ss.map (scoreOne now ctx ss)).filter
            (fun r => decide (r.score = c)) := by
  rcases eq_or_ne ss [] with rfl | hne
  · simp [calculateRelevanceScores]
  · rw [rank_eq_of_ne_nil hne]
    have hsome : ∀ x ∈ ss.map (scoreOne now ctx ss), x.score.isSome := by
      intro x hx
      obtain ⟨s, hs, rfl⟩ := List.mem_map.1 hx
      exact scoreOne_score_isSome (hdates s hs)
    constructor
    · refine List.Pairwise.imp_of_mem ?_ (pairwise_sortDesc hsome)
      intro a b ha hb hab
      exact cmpLe_to_scoreGe (hsome a (mem_sortDesc.1 ha))
        (hsome b (mem_sortDesc.1 hb)) hab
    · intro c
      apply filter_sortDesc
      intro x y hx hy
      have hx' : x.score = c := of_decide_eq_true hx
      have hy' : y.score = c := of_decide_eq_true hy
      unfold cmpLe
      rw [hx', hy']
      rcases c with _ | v
      · exact trivial
      · exact le_refl v

/-- Witness for C8 at the concrete corpus [sEpoch] ranked at now = 0. -/
theorem c8_witness :
    (calculateRelevanceScores 0 ctx0 [sEpoch]).Pairwise scoreGe ∧
    ∀ c : Option ℝ,
      (calculateRelevanceScores 0 ctx0 [sEpoch]).filter
          (fun r => decide (r.score = c))
        = ([sEpoch].map (scoreOne 0 ctx0 [sEpoch])).filter
            (fun r => decide (r.score = c)) :=
  c8_sorted_stable 0 ctx0 [sEpoch] (fun s hs => by
    rw [List.mem_singleton] at hs; subst hs; rfl)

/-- C8 counterexample: with one NaN-dated session and one freshly dated
session the returned sequence is not pairwise non-increasing in score, since
no score comparison against a NaN score holds. -/
theorem c8_counterexample :
    ¬ (calculateRelevanceScores 0 ctx0 [sNan, sEpoch]).Pairwise scoreGe := by
  intro h
  rw [rank_eq_of_ne_nil (by simp), List.map_cons, List.map_cons,
    List.map_nil] at h
  set a := scoreOne 0 ctx0 [sNan, sEpoch] sNan with hadef
  set b := scoreOne 0 ctx0 [sNan, sEpoch] sEpoch with hbdef
  have ha : a.score = none := rfl
  have hb : b.score = some (min
      ((scoreOne 0 ctx0 [sNan, sEpoch] sEpoch).similarity * 0.4
        + timeWeightOf 0 0 * 0.45 + 0) 1) := rfl
  have hcmp : cmpLe a b := by
    unfold cmpLe
    rw [ha]
    exact trivial
  have hsort : sortDesc [a, b] = [a, b] := by
    show insertDesc a (insertDesc b (sortDesc [])) = [a, b]
    rw [show sortDesc [] = [] from rfl]
    rw [show insertDesc b [] = [b] from rfl]
    unfold insertDesc
    rw [if_pos hcmp]
  rw [hsort] at h
  have hge : scoreGe a b := (List.pairwise_cons.1 h).1 b (List.mem_singleton.2 rfl)
  unfold scoreGe at hge
  rw [ha, hb] at hge
  exact hge

-- ═══════════════════════════════════════════════════════════════
-- C4: conversation bonus
-- ═══════════════════════════════════════════════════════════════

lemma similarityOf_eq (ctx : CurrentContext) (ss : List Session) (s : Session) :
    similarityOf ctx ss s = cosineSimilarity
      (calculateTFIDF (contextKeywordsOf ctx)
        (calculateDF (corpusDocs ctx ss)) (ss.length + 1))
      (calculateTFIDF (extractSessionKeywords s)
        (calculateDF (corpusDocs ctx ss)) (ss.length + 1)) := rfl

lemma extractSessionKeywords_congr {s s' : Session}
    (hsum : s'.summary = s.summary) (hobs : s'.observations = s.observations)
    (hconv : s.conversations = [])
    (hmsg : ∀ c ∈ s'.conversations, c.message = "") :
    extractSessionKeywords s' = extractSessionKeywords s := by
  unfold extractSessionKeywords
  rw [hsum, hobs, hconv]
  have hB : s'.conversations.flatMap
      (fun conv => if conv.message ≠ "" then extractKeywords conv.message
        else []) = [] := by
    refine List.eq_nil_iff_forall_not_mem.2 fun x hx => ?_
    obtain ⟨c, hc, hxc⟩ := List.mem_flatMap.1 hx
    rw [hmsg c hc] at hxc
    simp at hxc
  rw [hB]
  simp

/-- C4 (amended): two otherwise-identical corpora in which one session gains
a non-empty conversations list whose messages contribute no keywords (empty
messages) give that session pre-clamp final scores differing by exactly
0.15. -/
theorem c4_bonus_additivity (now : ℝ) (ctx : CurrentContext)
    (pre post : List Session) (s s' : Session)
    (hsum : s'.summary = s.summary) (hdate : s'.date = s.date)
    (hobs : s'.observations = s.observations)
    (hconv : s.conversations = []) (hconv' : s'.conversations ≠ [])
    (hmsg : ∀ c ∈ s'.conversations, c.message = "") :
    (scoreOne now ctx (pre ++ s' :: post) s').finalScore
      = ((scoreOne now ctx (pre ++ s :: post) s).finalScore).map
          (fun f => f + 0.15) := by
  have hkw : extractSessionKeywords s' = extractSessionKeywords s :=
    extractSessionKeywords_congr hsum hobs hconv hmsg
  have hdocs : corpusDocs ctx (pre ++ s' :: post)
      = corpusDocs ctx (pre ++ s :: post) := by
    unfold corpusDocs
    rw [List.map_append, List.map_append, List.map_cons, List.map_cons, hkw]
  have hlen : (pre ++ s' :: post).length = (pre ++ s :: post).length := by
    simp
  have hsim : similarityOf ctx (pre ++ s' :: post) s'
      = similarityOf ctx (pre ++ s :: post) s := by
    rw [similarityOf_eq, similarityOf_eq, hdocs, hkw, hlen]
  have hb' : (if s'.conversations.length > 0 then (0.15 : ℝ) else 0) = 0.15 :=
    if_pos (List.length_pos.2 hconv')
  have hb : (if s.conversations.length > 0 then (0.15 : ℝ) else 0) = 0 := by
    rw [hconv]; simp
  rw [scoreOne_finalScore, scoreOne_finalScore, hsim, hdate, hb, hb']
  rcases s.date with _ | t
  · rfl
  · rw [Option.map_some', Option.map_some', Option.map_some']
    exact congrArg some (by ring)

/-- The current context used by the C4 witness and counterexample. -/
def ctxC4 : CurrentContext := ⟨some "/alpha", []⟩

/-- Session with summary "alpha alpha" and no conversations. -/
def sAlpha : Session := ⟨some 0, "alpha alpha", [], []⟩

/-- Same as sAlpha but with one conversation carrying an empty message. -/
def sAlphaConv : Session := ⟨some 0, "alpha alpha", [⟨""⟩], []⟩

/-- Same as sAlpha but with one conversation carrying a real message. -/
def sGamma : Session := ⟨some 0, "alpha alpha", [⟨"gamma gamma"⟩], []⟩

/-- Witness for C4 at the concrete pair sAlpha / sAlphaConv. -/
theorem c4_witness :
    (scoreOne 0 ctxC4 [sAlphaConv] sAlphaConv).finalScore
      = ((scoreOne 0 ctxC4 [sAlpha] sAlpha).finalScore).map
          (fun f => f + 0.15) :=
  c4_bonus_additivity 0 ctxC4 [] [] sAlpha sAlphaConv rfl rfl rfl rfl
    (by simp [sAlphaConv])
    (fun c hc => by
      rw [show sAlphaConv.conversations = [⟨""⟩] from rfl,
        List.mem_singleton] at hc
      subst hc
      rfl)

/-- The DF table of the ranking over [sAlpha]. -/
def dfAlpha : String → ℕ := calculateDF (corpusDocs ctxC4 [sAlpha])

/-- The DF table of the ranking over [sGamma]. -/
def dfGamma : String → ℕ := calculateDF (corpusDocs ctxC4 [sGamma])

lemma tfidf_get_alpha_ctxA :
    (calculateTFIDF ["alpha"] dfAlpha 2).get "alpha" = 1 := by
  rw [calculateTFIDF_get_of_mem dfAlpha 2
    (by decide : "alpha" ∈ (["alpha"] : List String))]
  rw [calculateTF_get_of_mem (by decide : "alpha" ∈ (["alpha"] : List String))]
  rw [show (["alpha"] : List String).count "alpha" = 1 from by decide]
  rw [show (max ((["alpha"] : List String).toFinset.sup
      fun u => (["alpha"] : List String).count u) 1) = 1 from by decide]
  rw [show dfAlpha "alpha" = 2 from by decide]
  norm_num [Real.log_one]

lemma tfidf_get_alpha_sesA :
    (calculateTFIDF ["alpha", "alpha"] dfAlpha 2).get "alpha" = 1 := by
  rw [calculateTFIDF_get_of_mem dfAlpha 2
    (by decide : "alpha" ∈ (["alpha", "alpha"] : List String))]
  rw [calculateTF_get_of_mem
    (by decide : "alpha" ∈ (["alpha", "alpha"] : List String))]
  rw [show (["alpha", "alpha"] : List String).count "alpha" = 2 from by decide]
  rw [show (max ((["alpha", "alpha"] : List String).toFinset.sup
      fun u => (["alpha", "alpha"] : List String).count u) 1) = 2 from by decide]
  rw [show dfAlpha "alpha" = 2 from by decide]
  norm_num [Real.log_one]

lemma sim_sAlpha : similarityOf ctxC4 [sAlpha] sAlpha = 1 := by
  rw [similarityOf_eq]
  rw [show contextKeywordsOf ctxC4 = ["alpha"] from by decide]
  rw [show extractSessionKeywords sAlpha = ["alpha", "alpha"] from by decide]
  rw [show ([sAlpha] : List Session).length + 1 = 2 from rfl]
  rw [show calculateDF (corpusDocs ctxC4 [sAlpha]) = dfAlpha from rfl]
  rw [cosineSimilarity_def]
  rw [show (calculateTFIDF ["alpha"] dfAlpha 2).keys
      ∪ (calculateTFIDF ["alpha", "alpha"] dfAlpha 2).keys
      = ({"alpha"} : Finset String) from by
    rw [calculateTFIDF_keys, calculateTFIDF_keys]; decide]
  rw [Finset.sum_singleton, Finset.sum_singleton, Finset.sum_singleton]
  rw [tfidf_get_alpha_ctxA, tfidf_get_alpha_sesA]
  rw [if_neg (by norm_num)]
  norm_num [Real.sqrt_one]

lemma tfidf_get_alpha_ctxB :
    (calculateTFIDF ["alpha"] dfGamma 2).get "alpha" = 1 := by
  rw [calculateTFIDF_get_of_mem dfGamma 2
    (by decide : "alpha" ∈ (["alpha"] : List String))]
  rw [calculateTF_get_of_mem (by decide : "alpha" ∈ (["alpha"] : List String))]
  rw [show (["alpha"] : List String).count "alpha" = 1 from by decide]
  rw [show (max ((["alpha"] : List String).toFinset.sup
      fun u => (["alpha"] : List String).count u) 1) = 1 from by decide]
  rw [show dfGamma "alpha" = 2 from by decide]
  norm_num [Real.log_one]

lemma tfidf_get_gamma_ctxB :
    (calculateTFIDF ["alpha"] dfGamma 2).get "gamma" = 0 :=
  calculateTFIDF_get_of_not_mem dfGamma 2
    (by decide : ¬ ("gamma" ∈ (["alpha"] : List String)))

lemma tfidf_get_alpha_sesB :
    (calculateTFIDF ["alpha", "alpha", "gamma", "gamma"] dfGamma 2).get "alpha"
      = 1 := by
  rw [calculateTFIDF_get_of_mem dfGamma 2
    (by decide : "alpha" ∈ (["alpha", "alpha", "gamma", "gamma"] : List String))]
  rw [calculateTF_get_of_mem (by decide :
    "alpha" ∈ (["alpha", "alpha", "gamma", "gamma"] : List String))]
  rw [show (["alpha", "alpha", "gamma", "gamma"] : List String).count "alpha"
      = 2 from by decide]
  rw [show (max ((["alpha", "alpha", "gamma", "gamma"] : List String).toFinset.sup
      fun u => (["alpha", "alpha", "gamma", "gamma"] : List String).count u) 1)
      = 2 from by decide]
  rw [show dfGamma "alpha" = 2 from by decide]
  norm_num [Real.log_one]

lemma tfidf_get_gamma_sesB :
    (calculateTFIDF ["alpha", "alpha", "gamma", "gamma"] dfGamma 2).get "gamma"
      = Real.log (3 / 2) + 1 := by
  rw [calculateTFIDF_get_of_mem dfGamma 2
    (by decide : "gamma" ∈ (["alpha", "alpha", "gamma", "gamma"] : List String))]
  rw [calculateTF_get_of_mem (by decide :
    "gamma" ∈ (["alpha", "alpha", "gamma", "gamma"] : List String))]
  rw [show (["alpha", "alpha", "gamma", "gamma"] : List String).count "gamma"
      = 2 from by decide]
  rw [show (max ((["alpha", "alpha", "gamma", "gamma"] : List String).toFinset.sup
      fun u => (["alpha", "alpha", "gamma", "gamma"] : List String).count u) 1)
      = 2 from by decide]
  rw [show dfGamma "gamma" = 1 from by decide]
  norm_num

lemma sim_sGamma : similarityOf ctxC4 [sGamma] sGamma
    = 1 / Real.sqrt (1 + (Real.log (3 / 2) + 1) * (Real.log (3 / 2) + 1)) := by
  rw [similarityOf_eq]
  rw [show contextKeywordsOf ctxC4 = ["alpha"] from by decide]
  rw [show extractSessionKeywords sGamma
      = ["alpha", "alpha", "gamma", "gamma"] from by decide]
  rw [show ([sGamma] : List Session).length + 1 = 2 from rfl]
  rw [show calculateDF (corpusDocs ctxC4 [sGamma]) = dfGamma from rfl]
  rw [cosineSimilarity_def]
  rw [show (calculateTFIDF ["alpha"] dfGamma 2).keys
      ∪ (calculateTFIDF ["alpha", "alpha", "gamma", "gamma"] dfGamma 2).keys
      = ({"alpha", "gamma"} : Finset String) from by
    rw [calculateTFIDF_keys, calculateTFIDF_keys]; decide]
  simp only [Finset.sum_insert
    (by decide : "alpha" ∉ ({"gamma"} : Finset String)), Finset.sum_singleton]
  rw [tfidf_get_alpha_ctxB, tfidf_get_gamma_ctxB, tfidf_get_alpha_sesB,
    tfidf_get_gamma_sesB]
  have hnn : (0 : ℝ) ≤ Real.log (3 / 2) := Real.log_nonneg (by norm_num)
  rw [if_neg (by
    push_neg
    constructor
    · norm_num
    · nlinarith [mul_self_nonneg (Real.log (3 / 2) + 1)])]
  have h1 : (1 : ℝ) * 1 + 0 * (Real.log (3 / 2) + 1) = 1 := by ring
  have h2 : (1 : ℝ) * 1 + 0 * 0 = 1 := by ring
  rw [h1, h2, Real.sqrt_one]
  ring_nf

/-- C4 counterexample: with a conversation message that does contribute
keywords ("gamma gamma"), the two pre-clamp scores do not differ by exactly
0.15, because the added keywords also change the session vector and hence the
similarity term. -/
theorem c4_counterexample :
    (scoreOne 0 ctxC4 [sGamma] sGamma).finalScore
      ≠ ((scoreOne 0 ctxC4 [sAlpha] sAlpha).finalScore).map
          (fun f => f + 0.15) := by
  rw [scoreOne_finalScore, scoreOne_finalScore]
  rw [show sGamma.date = some (0 : ℝ) from rfl,
    show sAlpha.date = some (0 : ℝ) from rfl]
  rw [Option.map_some', Option.map_some', Option.map_some']
  rw [show (if sGamma.conversations.length > 0 then (0.15 : ℝ) else 0)
      = 0.15 from if_pos (by decide)]
  rw [show (if sAlpha.conversations.length > 0 then (0.15 : ℝ) else 0)
      = 0 from by simp [sAlpha]]
  rw [show timeWeightOf 0 0 = 1 from timeWeightOf_self 0]
  rw [sim_sGamma, sim_sAlpha]
  intro h
  have h' := Option.some.inj h
  have hnn : (0 : ℝ) ≤ Real.log (3 / 2) := Real.log_nonneg (by norm_num)
  have hsqrt : (1 : ℝ)
      < Real.sqrt (1 + (Real.log (3 / 2) + 1) * (Real.log (3 / 2) + 1)) := by
    rw [Real.lt_sqrt (by norm_num : (0 : ℝ) ≤ 1)]
    nlinarith
  have hdiv : (1 : ℝ)
      / Real.sqrt (1 + (Real.log (3 / 2) + 1) * (Real.log (3 / 2) + 1)) < 1 := by
    rw [div_lt_one (lt_trans zero_lt_one hsqrt)]
    exact hsqrt
  have h'' : 1 / Real.sqrt (1 + (Real.log (3 / 2) + 1) * (Real.log (3 / 2) + 1))
      * 0.4 + 1 * 0.45 + 0.15 = 1 * 0.4 + 1 * 0.45 + 0 + 0.15 := h'
  nlinarith [h'', hdiv]
